import Mathlib

/-!
# Verification of `valibot-fast-check`

A shallow embedding of the schema-to-generator compiler of the
`valibot-fast-check` repository, together with proofs about the claims on
its specification.

Modelling conventions:

* JavaScript numbers are modelled as rationals (`ℚ`): arithmetic is exact,
  `NaN` is the separate value `Value.vNaN`, and the infinite values
  `+Infinity` / `-Infinity` are outside the model (no claim exercises them;
  places where the source compares against `Infinity` are noted in comments).
* JavaScript bigints are `ℤ`, `Date`s are their epoch-millisecond timestamps
  (`ℤ`), strings are Lean `String`s.
* A schema's JavaScript object identity (used by the override registry's
  `Map` keys) is modelled by a numeric `ident` field carried by every
  schema node.
* `fast-check` arbitraries are external collaborators; they are embedded as
  a deep datatype `Arb` of the combinator calls the core makes, with a
  support relation `ArbMem` describing which values a combinator can sample.
* Exceptions thrown during generator construction are modelled with
  `Except`; the stateful success-rate guard closure is modelled by explicit
  state passing (`GuardState`).
-/

namespace ValibotFastCheck

/-- A JavaScript runtime value, as far as the generators are concerned. -/
inductive Value where
  | vNull
  | vUndefined
  | vNaN
  | vBool (b : Bool)
  | vNum (q : ℚ)
  | vBigInt (n : ℤ)
  | vStr (s : String)
  | vDate (t : ℤ)
  | vArr (elems : List Value)
  | vObj (fields : List (String × Value))

/-- The payload (`requirement`) of a constraint pipeline entry.  Regular
expressions are modelled by their test predicate. -/
inductive Req where
  | bool (b : Bool)
  | num (q : ℚ)
  | str (s : String)
  | int (n : ℤ)
  | date (t : ℤ)
  | nums (qs : List ℚ)
  | strs (ss : List String)
  | ints (ns : List ℤ)
  | dates (ts : List ℤ)
  | regex (test : String → Bool)
  | noPayload

/-- Length requirements are natural numbers packed in a JavaScript number. -/
def Req.asNat : Req → ℕ
  | .num q => q.floor.toNat
  | _ => 0

/-- Numeric requirement payload. -/
def Req.asNum : Req → ℚ
  | .num q => q
  | _ => 0

/-- String requirement payload. -/
def Req.asStr : Req → String
  | .str s => s
  | _ => ""

/-- Date requirement payload (epoch milliseconds). -/
def Req.asDate : Req → ℤ
  | .date t => t
  | _ => 0

/-- Bigint requirement payload. -/
def Req.asInt : Req → ℤ
  | .int n => n
  | _ => 0

/-- List-of-bigints requirement payload. -/
def Req.asInts : Req → List ℤ
  | .ints ns => ns
  | _ => []

/-- List-of-numbers requirement payload. -/
def Req.asNums : Req → List ℚ
  | .nums qs => qs
  | _ => []

/-- List-of-strings requirement payload. -/
def Req.asStrs : Req → List String
  | .strs ss => ss
  | _ => []

/-- List-of-dates requirement payload. -/
def Req.asDates : Req → List ℤ
  | .dates ts => ts
  | _ => []

/-- JavaScript truthiness of a requirement payload (arrays and objects are
truthy, `0`, `""`, `false` and `undefined` are falsy). -/
def Req.truthy : Req → Bool
  | .bool b => b
  | .num q => decide (q ≠ 0)
  | .str s => decide (s ≠ "")
  | .int n => decide (n ≠ 0)
  | .date _ => true
  | .nums _ => true
  | .strs _ => true
  | .ints _ => true
  | .dates _ => true
  | .regex _ => true
  | .noPayload => false

/-- One entry of a schema's constraint pipeline: the source reads
`pipe.kind` (`"validation"` or `"transformation"`), `pipe.type` (the
constraint tag) and `pipe.requirement`. -/
structure Pipe where
  kind : String
  type : String
  requirement : Req

/-- A valibot schema node.  Every constructor carries an `ident : ℕ`
modelling the JavaScript object identity of the node (the override
registry keys its `Map` on the schema reference).  `unsupported ty`
models a node whose `type` tag has no entry in the builder table
(`isSupportedSchemaType` is false exactly there); the kinds the claims
exercise are embedded structurally. -/
inductive Schema where
  | string (ident : ℕ) (pipe : Option (List Pipe))
  | number (ident : ℕ) (pipe : Option (List Pipe))
  | bigint (ident : ℕ) (pipe : Option (List Pipe))
  | boolean (ident : ℕ) (pipe : Option (List Pipe))
  | date (ident : ℕ) (pipe : Option (List Pipe))
  | array (ident : ℕ) (item : Schema) (pipe : Option (List Pipe))
  | object (ident : ℕ) (entries : List (String × Schema))
  | set (ident : ℕ) (value : Schema) (pipe : Option (List Pipe))
  | tuple (ident : ℕ) (items : List Schema)
  | union (ident : ℕ) (options : List Schema)
  | optional (ident : ℕ) (wrapped : Schema)
  | nullable (ident : ℕ) (wrapped : Schema)
  | nullish (ident : ℕ) (wrapped : Schema)
  | literal (ident : ℕ) (lit : Value)
  | enum (ident : ℕ) (options : List Value)
  | nullS (ident : ℕ)
  | undefinedS (ident : ℕ)
  | nanS (ident : ℕ)
  | anyS (ident : ℕ)
  | unknownS (ident : ℕ)
  | voidS (ident : ℕ)
  | unsupported (ident : ℕ) (typeName : String)

/-- The schema's object identity (models the JavaScript reference used as
the override `Map` key). -/
def Schema.ident : Schema → ℕ
  | .string i _ => i
  | .number i _ => i
  | .bigint i _ => i
  | .boolean i _ => i
  | .date i _ => i
  | .array i _ _ => i
  | .object i _ => i
  | .set i _ _ => i
  | .tuple i _ => i
  | .union i _ => i
  | .optional i _ => i
  | .nullable i _ => i
  | .nullish i _ => i
  | .literal i _ => i
  | .enum i _ => i
  | .nullS i => i
  | .undefinedS i => i
  | .nanS i => i
  | .anyS i => i
  | .unknownS i => i
  | .voidS i => i
  | .unsupported i _ => i

/-- The schema's `type` tag. -/
def Schema.type : Schema → String
  | .string .. => "string"
  | .number .. => "number"
  | .bigint .. => "bigint"
  | .boolean .. => "boolean"
  | .date .. => "date"
  | .array .. => "array"
  | .object .. => "object"
  | .set .. => "set"
  | .tuple .. => "tuple"
  | .union .. => "union"
  | .optional .. => "optional"
  | .nullable .. => "nullable"
  | .nullish .. => "nullish"
  | .literal .. => "literal"
  | .enum .. => "enum"
  | .nullS .. => "null"
  | .undefinedS .. => "undefined"
  | .nanS .. => "nan"
  | .anyS .. => "any"
  | .unknownS .. => "unknown"
  | .voidS .. => "void"
  | .unsupported _ ty => ty

/-- `"pipe" in schema ? schema.pipe : undefined` — the constraint pipeline
of a schema node, when the node carries one. -/
def Schema.pipeOf : Schema → Option (List Pipe)
  | .string _ p => p
  | .number _ p => p
  | .bigint _ p => p
  | .boolean _ p => p
  | .date _ p => p
  | .array _ _ p => p
  | .set _ _ p => p
  | _ => none

/-- `isSupportedSchemaType` from `src/src/helpers.ts`: the tag must be a key
of the `arbitraryBuilder` table (and the node must be of kind `"schema"`).
In the embedding all structurally-embedded kinds are in the table;
`unsupported` models exactly the nodes that fail this membership test. -/
def isSupportedSchemaType : Schema → Bool
  | .unsupported .. => false
  | _ => true

/-- The message built by `unsupportedSchemaError` in `src/src/helpers.ts`
(note: the function receives only the type name — no path). -/
def unsupportedMessage (schemaTypeName : String) : String :=
  "Unable to generate valid values for Valibot schema." ++
    schemaTypeName ++ " schemas are not supported."

/-- The error kinds surfacing from generator construction
(`VFCUnsupportedSchemaError` in the source).  The `GenerationFailure`
error of the sampling-time guard is modelled separately by `guardRun`. -/
inductive VfcError where
  | unsupportedSchema (message : String)
  deriving DecidableEq

/-! ## String helpers (JavaScript `startsWith` / `includes` / endsWith) -/

/-- `sub` is a prefix of `l` (decidable, executable). -/
def hasPre : List Char → List Char → Bool
  | [], _ => true
  | _ :: _, [] => false
  | a :: as, b :: bs => a == b && hasPre as bs

/-- `sub` occurs somewhere inside `l` (decidable, executable). -/
def hasSub (sub : List Char) : List Char → Bool
  | [] => hasPre sub []
  | c :: rest => hasPre sub (c :: rest) || hasSub sub rest

/-- JavaScript `s.startsWith(sub)`. -/
def strStarts (s sub : String) : Bool := hasPre sub.toList s.toList

/-- JavaScript `s.endsWith(sub)`. -/
def strEnds (s sub : String) : Bool := hasPre sub.toList.reverse s.toList.reverse

/-- JavaScript `s.includes(sub)`. -/
def strIncl (s sub : String) : Bool := hasSub sub.toList s.toList

/-! ## The external generator library

The combinator surface of fast-check that the core calls, embedded as a
deep datatype.  `mapA` / `filterA` carry the post-processing functions; the
success-rate-guarded filter produced by `filterBySchema` is `filterSchema`,
remembering the schema and diagnostic path the guard was built with. -/

inductive Arb where
  | const (v : Value)
  | constantFrom (vs : List Value)
  | boolean
  | stringAny
  | stringRange (minLen maxLen : ℕ)
  | doubleAny
  | doubleRange (lo hi : ℚ)
  | intRange (lo hi : ℤ)
  | bigIntAny
  | bigIntRange (lo hi : Option ℤ)
  | dateAny
  | dateRange (lo hi : Option ℤ)
  | uuid
  | email
  | webUrl
  | anything
  | funcArb
  | symbolArb
  | mapA (f : Value → Value) (a : Arb)
  | filterA (p : Value → Bool) (a : Arb)
  | filterSchema (schema : Schema) (path : String) (a : Arb)
  | oneofW (alts : List (ℕ × Arb))
  | oneofU (alts : List Arb)
  | tupleA (parts : List Arb)
  | recordA (fields : List (String × Arb))
  | arrayOf (a : Arb) (minLen maxLen : ℕ)
  | uniqueArrayOf (a : Arb) (minLen maxLen : ℕ)
  | mapEntries (key value : Arb)

/-- Modelled from the external generator library: `fc.option(arb, {nil,
freq})` is a weighted choice in which the nil value has weight `1` and the
wrapped arbitrary has weight `freq`. -/
def fcOption (a : Arb) (nil : Value) (freq : ℕ) : Arb :=
  .oneofW [(1, .const nil), (freq, a)]

/-- `filterBySchema` from `src/src/helpers.ts`: wrap an arbitrary in a
filter that validates sampled values against the schema, guarded by the
success-rate monitor (whose stateful behaviour is modelled by `guardRun`
below). -/
def filterBySchema (arbitrary : Arb) (schema : Schema) (path : String) : Arb :=
  .filterSchema schema path arbitrary

/-! ## The success-rate guard (`guardPredicate` in `src/src/helpers.ts`) -/

/-- `MIN_RUNS` from `guardPredicate`. -/
def MIN_RUNS : ℕ := 1000

/-- `MIN_SUCCESS_RATE = 0.01` from `src/src/helpers.ts`. -/
def MIN_SUCCESS_RATE : ℚ := 1 / 100

/-- The closure state of one `guardPredicate` instance. -/
structure GuardState where
  successful : ℕ
  total : ℕ
  deriving DecidableEq

/-- The message of the `VFCGenerationError` thrown by `guardPredicate`
(empty path renders as `.`). -/
def generationFailureMessage (path : String) : String :=
  "Unable to generate valid values for the passed Valibot schema. " ++
    "Please provide an override for the schema at path '" ++
    (if path = "" then "." else path) ++ "'."

/-- One evaluation of the predicate returned by
`guardPredicate(successRate, predicate, path)`: the predicate outcome
`isSuccess` has already been computed; the counters are bumped, and once
`total` exceeds `MIN_RUNS`, a success rate below `successRate` throws a
`VFCGenerationError`. -/
def guardEval (successRate : ℚ) (path : String) (isSuccess : Bool)
    (st : GuardState) : Except String (Bool × GuardState) :=
  let st2 : GuardState :=
    ⟨st.successful + (if isSuccess then 1 else 0), st.total + 1⟩
  if st2.total > MIN_RUNS ∧ (st2.successful : ℚ) / (st2.total : ℚ) < successRate then
    .error (generationFailureMessage path)
  else
    .ok (isSuccess, st2)

/-- Run one guard closure over a sequence of predicate outcomes, starting
from an arbitrary counter state. -/
def guardRunFrom (successRate : ℚ) (path : String) :
    GuardState → List Bool → Except String GuardState
  | st, [] => .ok st
  | st, b :: rest =>
    match guardEval successRate path b st with
    | .error e => .error e
    | .ok (_, st2) => guardRunFrom successRate path st2 rest

/-- Run a freshly created guard closure (counters start at zero, as in the
closure capture of `guardPredicate`) over a sequence of predicate
outcomes. -/
def guardRun (successRate : ℚ) (path : String) (outcomes : List Bool) :
    Except String GuardState :=
  guardRunFrom successRate path ⟨0, 0⟩ outcomes

/-! ## Scalar builders -/

/-- `Number.MIN_SAFE_INTEGER`. -/
def MIN_SAFE_INTEGER : ℚ := -(2 ^ 53 - 1)

/-- `Number.MAX_SAFE_INTEGER`. -/
def MAX_SAFE_INTEGER : ℚ := 2 ^ 53 - 1

/-- `Number.EPSILON = 2⁻⁵²`. -/
def qEpsilon : ℚ := 1 / 2 ^ 52

/-- `Number.isInteger` on the rational model of JavaScript numbers. -/
def qIsInt (q : ℚ) : Bool := q.den == 1

/-- Round a rational to the nearest integer, ties to even (the IEEE-754
default rounding direction). -/
def roundNearestEven (q : ℚ) : ℤ :=
  let f := ⌊q⌋
  let frac := q - f
  if frac < 1 / 2 then f
  else if 1 / 2 < frac then f + 1
  else if f % 2 = 0 then f else f + 1

/-- Round a positive rational to the binary64 grid: scale by
`2 ^ (52 - exponent)` so the mantissa window becomes the integers, round
to nearest (ties to even), and scale back. -/
def roundPos (q : ℚ) : ℚ :=
  ((roundNearestEven (q * 2 ^ ((52 : ℤ) - Int.log 2 q)) : ℚ)) *
    2 ^ (Int.log 2 q - (52 : ℤ))

/-- Modelled from IEEE-754: round a rational to the nearest binary64
value (ties to even).  Valid on the normal range, which covers every
magnitude the builders feed it; overflow and subnormals are outside the
model. -/
def roundDouble (q : ℚ) : ℚ :=
  if q = 0 then 0
  else if 0 < q then roundPos q
  else - roundPos (-q)

/-- JavaScript `+` on numbers: exact sum, rounded to binary64. -/
def jsAdd (a b : ℚ) : ℚ := roundDouble (a + b)

/-- JavaScript `-` on numbers: exact difference, rounded to binary64. -/
def jsSub (a b : ℚ) : ℚ := roundDouble (a - b)

/-- `buildBooleanArbitrary` from `src/src/builder/boolean.ts`: only a
literal-value constraint (`value`, or its negation `not_value`) is
recognized; otherwise uniform true/false. -/
def buildBooleanArbitrary (schema : Schema) : Arb :=
  match schema.pipeOf with
  | none => .boolean
  | some pipes =>
    let literalValue : Option Bool :=
      pipes.foldl
        (fun acc pipe =>
          if pipe.kind == "validation" then
            match pipe.type with
            | "not_value" => some (! pipe.requirement.truthy)
            | "value" => some pipe.requirement.truthy
            | _ => acc
          else acc)
        none
    match literalValue with
    | some b => .const (.vBool b)
    | none => .boolean

/-- The local accumulator of `buildNumberArbitrary`'s constraint loop. -/
structure NumAcc where
  minValue : ℚ
  maxValue : ℚ
  multipleOf : Option ℚ
  isFinite : Bool
  hasUnsupportedFormat : Bool

/-- Initial accumulator of `buildNumberArbitrary` (bounds seeded at the
safe-integer limits). -/
def initNumAcc : NumAcc :=
  { minValue := MIN_SAFE_INTEGER
    maxValue := MAX_SAFE_INTEGER
    multipleOf := none
    isFinite := false
    hasUnsupportedFormat := false }

/-- The constraint loop of `buildNumberArbitrary`
(`src/src/builder/number.ts`, lines 21–64): a left fold over the
validation entries, with the `value` / `values` cases returning a
constant / choice arbitrary early (`Sum.inr`). -/
def numResolve : List Pipe → NumAcc → NumAcc ⊕ Arb
  | [], acc => .inl acc
  | pipe :: rest, acc =>
    match pipe.type with
    | "min_value" =>
      numResolve rest { acc with minValue := max acc.minValue pipe.requirement.asNum }
    | "max_value" =>
      numResolve rest { acc with maxValue := min acc.maxValue pipe.requirement.asNum }
    | "integer" =>
      numResolve rest { acc with multipleOf := some (acc.multipleOf.getD 1) }
    | "finite" =>
      numResolve rest { acc with isFinite := true }
    | "multiple_of" =>
      numResolve rest
        { acc with multipleOf := some (acc.multipleOf.getD 1 * pipe.requirement.asNum) }
    | "gt_value" =>
      numResolve rest
        { acc with minValue := max acc.minValue (jsAdd pipe.requirement.asNum
            (if qIsInt pipe.requirement.asNum then 1 else qEpsilon)) }
    | "lt_value" =>
      numResolve rest
        { acc with maxValue := min acc.maxValue (jsSub pipe.requirement.asNum
            (if qIsInt pipe.requirement.asNum then 1 else qEpsilon)) }
    | "safe_integer" =>
      numResolve rest
        { acc with
            minValue := max acc.minValue MIN_SAFE_INTEGER
            maxValue := min acc.maxValue MAX_SAFE_INTEGER
            multipleOf := some (acc.multipleOf.getD 1) }
    | "value" => .inr (.const (.vNum pipe.requirement.asNum))
    | "values" => .inr (.constantFrom (pipe.requirement.asNums.map Value.vNum))
    | _ =>
      numResolve rest { acc with hasUnsupportedFormat := true }

/-- `value * factor` — the scaling map of the multiple-of sampling branch. -/
def numScale (factor : ℚ) : Value → Value
  | .vNum q => .vNum (q * factor)
  | v => v

/-- `buildNumberArbitrary` from `src/src/builder/number.ts`.  When
`multipleOf` is set, an integer in `[⌈min/factor⌉, ⌊max/factor⌋]` is drawn
and scaled; otherwise the bounded double range is sampled.  In the source,
when `isFinite` is not set, `fc.constant(Infinity)` / `fc.constant(-Infinity)`
are added as alternatives only when `maxValue >= Infinity` (resp.
`minValue <= -Infinity`); requirements are modelled as finite rationals,
so neither condition can hold and both branches yield the bounded finite
generator. -/
def buildNumberArbitrary (schema : Schema) (path : String) : Arb :=
  match schema.pipeOf with
  | none => .doubleAny
  | some pipes =>
    match numResolve (pipes.filter (fun pipe => pipe.kind == "validation")) initNumAcc with
    | .inr early => early
    | .inl acc =>
      let arbitrary : Arb :=
        match acc.multipleOf with
        | some factor =>
          .mapA (numScale factor)
            (.intRange ⌈acc.minValue / factor⌉ ⌊acc.maxValue / factor⌋)
        | none => .doubleRange acc.minValue acc.maxValue
      if acc.hasUnsupportedFormat then filterBySchema arbitrary schema path
      else arbitrary

/-- The local accumulator of `buildStringArbitrary`'s constraint loop. -/
structure StrAcc where
  minLength : ℕ
  maxLength : Option ℕ
  mappings : List (String → String)
  regexFilters : List (String → Bool)
  hasSpecialFormat : Bool
  specialFormatArbitrary : Option Arb

/-- Initial accumulator of `buildStringArbitrary`. -/
def initStrAcc : StrAcc :=
  { minLength := 0
    maxLength := none
    mappings := []
    regexFilters := []
    hasSpecialFormat := false
    specialFormatArbitrary := none }

/-- The constraint loop of `buildStringArbitrary`
(`src/unnamed/part_002`, lines 18–72): a left fold over the validation and
transformation entries.  Note the `default` case only recognizes a
`RegExp`-valued requirement (any other unrecognized constraint is silently
dropped — no flag, no fallback filter). -/
def strResolve : List Pipe → StrAcc → StrAcc
  | [], acc => acc
  | validation :: rest, acc =>
    match validation.type with
    | "min_length" =>
      strResolve rest { acc with minLength := max acc.minLength validation.requirement.asNat }
    | "max_length" =>
      strResolve rest
        { acc with maxLength := some (match acc.maxLength with
            | none => validation.requirement.asNat
            | some m => min m validation.requirement.asNat) }
    | "length" =>
      strResolve rest
        { acc with
            minLength := validation.requirement.asNat
            maxLength := some validation.requirement.asNat }
    | "starts_with" =>
      strResolve rest
        { acc with mappings := acc.mappings ++ [fun s => validation.requirement.asStr ++ s] }
    | "ends_with" =>
      strResolve rest
        { acc with mappings := acc.mappings ++ [fun s => s ++ validation.requirement.asStr] }
    | "uuid" =>
      strResolve rest
        { acc with hasSpecialFormat := true, specialFormatArbitrary := some .uuid }
    | "email" =>
      strResolve rest
        { acc with hasSpecialFormat := true, specialFormatArbitrary := some .email }
    | "url" =>
      strResolve rest
        { acc with hasSpecialFormat := true, specialFormatArbitrary := some .webUrl }
    | "regex" =>
      match validation.requirement with
      | .regex t => strResolve rest { acc with regexFilters := acc.regexFilters ++ [t] }
      | _ => strResolve rest acc
    | "includes" =>
      strResolve rest
        { acc with mappings := acc.mappings ++
            [fun s => if strIncl s validation.requirement.asStr then s
                      else s ++ validation.requirement.asStr] }
    | "non_empty" =>
      strResolve rest { acc with minLength := max acc.minLength 1 }
    | "trim" =>
      strResolve rest { acc with mappings := acc.mappings ++ [String.trim] }
    | _ =>
      -- `if (validation.requirement && validation.requirement instanceof RegExp)`
      match validation.requirement with
      | .regex t => strResolve rest { acc with regexFilters := acc.regexFilters ++ [t] }
      | _ => strResolve rest acc

/-- Lift a string mapping to the sampled values. -/
def strMap (f : String → String) : Value → Value
  | .vStr s => .vStr (f s)
  | v => v

/-- Lift a regex test to a predicate on sampled values. -/
def strPred (t : String → Bool) : Value → Bool
  | .vStr s => t s
  | _ => false

/-- `buildStringArbitrary` from `src/unnamed/part_002` (the repository's
`string.ts`): length bounds (max defaulting to `2*minLength + 10`),
post-processing mappings, regex filters, and a special-format shortcut for
uuid / email / url which is still filtered by the regex filters. -/
def buildStringArbitrary (schema : Schema) : Arb :=
  match schema.pipeOf with
  | none => .stringAny
  | some pipes =>
    let acc := strResolve
      (pipes.filter (fun pipe =>
        pipe.kind == "validation" || pipe.kind == "transformation"))
      initStrAcc
    match acc.hasSpecialFormat, acc.specialFormatArbitrary with
    | true, some special =>
      acc.regexFilters.foldl (fun a t => .filterA (strPred t) a) special
    | _, _ =>
      let maxLength := acc.maxLength.getD (2 * acc.minLength + 10)
      let base : Arb := .stringRange acc.minLength maxLength
      let mapped := acc.mappings.foldl (fun a f => .mapA (strMap f) a) base
      acc.regexFilters.foldl (fun a t => .filterA (strPred t) a) mapped

/-- The local accumulator of `buildDateArbitrary`'s constraint loop. -/
structure DateAcc where
  minValue : Option ℤ
  maxValue : Option ℤ
  hasUnsupportedFormat : Bool

/-- The constraint loop of `buildDateArbitrary` (`src/unnamed/part_003`,
lines 16–45): `gt_value` / `lt_value` are folded into the bounds with the
same inclusive-minimum / inclusive-maximum update as `min_value` /
`max_value` (no one-unit adjustment), and `value` / `values` short-circuit
(`Sum.inr`). -/
def dateResolve : List Pipe → DateAcc → DateAcc ⊕ Arb
  | [], acc => .inl acc
  | pipe :: rest, acc =>
    match pipe.type with
    | "min_value" =>
      if acc.minValue.all (fun m => pipe.requirement.asDate > m) then
        dateResolve rest { acc with minValue := some pipe.requirement.asDate }
      else dateResolve rest acc
    | "max_value" =>
      if acc.maxValue.all (fun m => pipe.requirement.asDate < m) then
        dateResolve rest { acc with maxValue := some pipe.requirement.asDate }
      else dateResolve rest acc
    | "gt_value" =>
      if acc.minValue.all (fun m => pipe.requirement.asDate > m) then
        dateResolve rest { acc with minValue := some pipe.requirement.asDate }
      else dateResolve rest acc
    | "lt_value" =>
      if acc.maxValue.all (fun m => pipe.requirement.asDate < m) then
        dateResolve rest { acc with maxValue := some pipe.requirement.asDate }
      else dateResolve rest acc
    | "value" => .inr (.const (.vDate pipe.requirement.asDate))
    | "values" => .inr (.constantFrom (pipe.requirement.asDates.map Value.vDate))
    | _ => dateResolve rest { acc with hasUnsupportedFormat := true }

/-- `buildDateArbitrary` from `src/unnamed/part_003` (the repository's
`date.ts`). -/
def buildDateArbitrary (schema : Schema) (path : String) : Arb :=
  match schema.pipeOf with
  | none => .dateAny
  | some pipes =>
    match dateResolve (pipes.filter (fun pipe => pipe.kind == "validation"))
        ⟨none, none, false⟩ with
    | .inr early => early
    | .inl acc =>
      let arbitrary : Arb := .dateRange acc.minValue acc.maxValue
      if acc.hasUnsupportedFormat then filterBySchema arbitrary schema path
      else arbitrary

/-- Lift a bigint predicate to a predicate on sampled values. -/
def bigIntPred (t : ℤ → Bool) : Value → Bool
  | .vBigInt n => t n
  | _ => false

/-- `buildBigIntArbitrary` from `src/src/builder/bigint.ts`: min/max
narrowing, with `check` / `gt_value` / `lt_value` / `not_value` /
`not_values` / `value` / `values` applied as plain post-generation
filters. -/
def buildBigIntArbitrary (schema : Schema) : Arb :=
  match schema.pipeOf with
  | none => .bigIntAny
  | some pipes =>
    let step : (Option ℤ × Option ℤ × List (ℤ → Bool)) → Pipe →
        (Option ℤ × Option ℤ × List (ℤ → Bool)) :=
      fun (minValue, maxValue, filters) pipe =>
        if pipe.kind == "validation" then
          match pipe.type with
          | "min_value" =>
            if minValue.all (fun m => pipe.requirement.asInt > m) then
              (some pipe.requirement.asInt, maxValue, filters)
            else (minValue, maxValue, filters)
          | "max_value" =>
            if maxValue.all (fun m => pipe.requirement.asInt < m) then
              (minValue, some pipe.requirement.asInt, filters)
            else (minValue, maxValue, filters)
          | "gt_value" =>
            (minValue, maxValue, filters ++ [fun v => decide (v > pipe.requirement.asInt)])
          | "lt_value" =>
            (minValue, maxValue, filters ++ [fun v => decide (v < pipe.requirement.asInt)])
          | "not_value" =>
            (minValue, maxValue, filters ++ [fun v => decide (v ≠ pipe.requirement.asInt)])
          | "not_values" =>
            (minValue, maxValue, filters ++ [fun v => ! pipe.requirement.asInts.contains v])
          | "value" =>
            (minValue, maxValue, filters ++ [fun v => decide (v = pipe.requirement.asInt)])
          | "values" =>
            (minValue, maxValue, filters ++ [fun v => pipe.requirement.asInts.contains v])
          | _ => (minValue, maxValue, filters)
        else (minValue, maxValue, filters)
    let resolved := pipes.foldl step (none, none, [])
    match resolved with
    | (minValue, maxValue, filters) =>
      filters.foldl (fun a t => .filterA (bigIntPred t) a)
        (.bigIntRange minValue maxValue)

/-! ## The override registry and the dispatcher (`src/src/index.ts`) -/

/-- An entry of the override registry.  The source stores either an
`Arbitrary` or a generator-producing function invoked with the current
builder; the function case is recorded in defunctionalized form, as the
generator it returns when invoked with the current builder (an untyped
closure over the builder cannot appear in the inductive registry type). -/
inductive OverrideEntry where
  | plain (a : Arb)
  | factoryResolved (a : Arb)

/-- `typeof override === "function" ? override(this) : override`. -/
def resolveOverride : OverrideEntry → Arb
  | .plain a => a
  | .factoryResolved a => a

/-- `Map.get` on the insertion-ordered association list modelling the
registry `Map` (keys are schema identities). -/
def mapGet : List (ℕ × OverrideEntry) → ℕ → Option OverrideEntry
  | [], _ => none
  | (k, v) :: rest, key => if k = key then some v else mapGet rest key

/-- `Map.set`: replace in place when the key is present, append
otherwise. -/
def mapSet : List (ℕ × OverrideEntry) → ℕ → OverrideEntry →
    List (ℕ × OverrideEntry)
  | [], key, v => [(key, v)]
  | (k, v0) :: rest, key, v =>
    if k = key then (key, v) :: rest else (k, v0) :: mapSet rest key v

/-- The `_VFC` builder: its private `overrides` map. -/
structure Builder where
  overrides : List (ℕ × OverrideEntry)

/-- `vfc()` — a fresh builder with an empty registry. -/
def vfcNew : Builder := ⟨[]⟩

/-- `clone` from `src/src/index.ts`: a new `_VFC` whose map receives every
entry of the receiver's map, in iteration (= insertion) order. -/
def Builder.clone (b : Builder) : Builder :=
  ⟨b.overrides.foldl (fun acc kv => mapSet acc kv.1 kv.2) []⟩

/-- `override(schema, arbitrary)` from `src/src/index.ts`: clone the
receiver, then `set` the new entry on the clone. -/
def Builder.override (b : Builder) (schema : Schema) (arbitrary : Arb) : Builder :=
  let withOverride := b.clone
  ⟨mapSet withOverride.overrides schema.ident (.plain arbitrary)⟩

/-- `findOverride` from `src/src/index.ts`. -/
def findOverride (b : Builder) (schema : Schema) : Option Arb :=
  (mapGet b.overrides schema.ident).map resolveOverride

/-! `inputWithPath` from `src/src/index.ts` together with the
`arbitraryBuilder` dispatch table of `src/src/builder/index.ts`. -/

mutual

/-- `inputWithPath`: (1) consult the override registry; (2) on a miss,
check the type tag is supported; (3) dispatch to the per-type strategy,
recursing into sub-schemas with the extended diagnostic path.  Thrown
`VFCUnsupportedSchemaError`s are modelled by `Except.error`. -/
def inputWithPath (b : Builder) (schema : Schema) (path : String) :
    Except VfcError Arb :=
  match findOverride b schema with
  | some override => .ok override
  | none =>
    if isSupportedSchemaType schema then
      arbitraryBuilder b schema path
    else
      .error (.unsupportedSchema (unsupportedMessage schema.type))

/-- The per-type strategies (`arbitraryBuilder` table). -/
def arbitraryBuilder (b : Builder) (schema : Schema) (path : String) :
    Except VfcError Arb :=
  match schema with
  | .string _ _ => .ok (buildStringArbitrary schema)
  | .number _ _ => .ok (buildNumberArbitrary schema path)
  | .bigint _ _ => .ok (buildBigIntArbitrary schema)
  | .boolean _ _ => .ok (buildBooleanArbitrary schema)
  | .date _ _ => .ok (buildDateArbitrary schema path)
  | .object _ entries => do
    -- object: one sub-generator per declared field, path extended by `.field`
    let fields ← inputFields b entries path
    pure (.recordA fields)
  | .array _ item pipe =>
    -- `buildArrayArbitrary` from `src/src/builder/array.ts`
    (match pipe with
     | none => do
       let inner ← inputWithPath b item (path ++ "[*]")
       pure (.arrayOf inner 0 10)
     | some pipes =>
       let step : (Option ℕ × Option ℕ × Bool) → Pipe → (Option ℕ × Option ℕ × Bool) :=
         fun (minLength, maxLength, hasUnsupportedFormat) p =>
           match p.type with
           | "min_length" =>
             if minLength.all (fun m => p.requirement.asNat > m) then
               (some p.requirement.asNat, maxLength, hasUnsupportedFormat)
             else (minLength, maxLength, hasUnsupportedFormat)
           | "max_length" =>
             if maxLength.all (fun m => p.requirement.asNat < m) then
               (minLength, some p.requirement.asNat, hasUnsupportedFormat)
             else (minLength, maxLength, hasUnsupportedFormat)
           | "size" =>
             (some p.requirement.asNat, some p.requirement.asNat, hasUnsupportedFormat)
           | _ => (minLength, maxLength, true)
       match (pipes.filter (fun p => p.kind == "validation")).foldl step
           (none, none, false) with
       | (minLength, maxLength, hasUnsupportedFormat) => do
         let inner ← inputWithPath b item (path ++ "[*]")
         let arbitrary : Arb := .arrayOf inner (minLength.getD 0) (maxLength.getD 10)
         pure (if hasUnsupportedFormat then filterBySchema arbitrary schema path
               else arbitrary))
  | .set _ value pipe =>
    -- `buildSetArbitrary` from `src/src/builder/set.ts`
    (match pipe with
     | none => do
       let inner ← inputWithPath b value (path ++ ".(value)")
       pure (.uniqueArrayOf inner 0 10)
     | some pipes =>
       let step : (ℕ × ℕ × Bool) → Pipe → (ℕ × ℕ × Bool) :=
         fun (minSize, maxSize, hasUnsupportedFormat) p =>
           match p.type with
           | "min_size" => (max minSize p.requirement.asNat, maxSize, hasUnsupportedFormat)
           | "max_size" => (minSize, min maxSize p.requirement.asNat, hasUnsupportedFormat)
           | "size" => (p.requirement.asNat, p.requirement.asNat, hasUnsupportedFormat)
           | _ => (minSize, maxSize, true)
       match (pipes.filter (fun p => p.kind == "validation")).foldl step
           (0, 10, false) with
       | (minSize, maxSize, hasUnsupportedFormat) => do
         let inner ← inputWithPath b value (path ++ ".(value)")
         let arbitrary : Arb := .uniqueArrayOf inner minSize maxSize
         pure (if hasUnsupportedFormat then filterBySchema arbitrary schema path
               else arbitrary))
  | .tuple _ items => do
    let parts ← inputItems b items path 0
    pure (.tupleA parts)
  | .union _ options => do
    let alts ← inputOptions b options path
    pure (.oneofU alts)
  | .optional _ wrapped => do
    let inner ← inputWithPath b wrapped path
    pure (fcOption inner .vUndefined 2)
  | .nullable _ wrapped => do
    let inner ← inputWithPath b wrapped path
    pure (fcOption inner .vNull 2)
  | .nullish _ wrapped => do
    let inner ← inputWithPath b wrapped path
    pure (.oneofW [(8, inner), (1, .const .vNull), (1, .const .vUndefined)])
  | .literal _ lit => .ok (.const lit)
  | .enum _ options => .ok (.oneofU (options.map Arb.const))
  | .nullS _ => .ok (.const .vNull)
  | .undefinedS _ => .ok (.const .vUndefined)
  | .nanS _ => .ok (.const .vNaN)
  | .anyS _ => .ok .anything
  | .unknownS _ => .ok .anything
  | .voidS _ => .ok (.const .vUndefined)
  | .unsupported _ ty => .error (.unsupportedSchema (unsupportedMessage ty))

/-- Build the field generators of an object schema, in declaration order,
with the diagnostic path extended by `"." ++ fieldName`. -/
def inputFields (b : Builder) (entries : List (String × Schema)) (path : String) :
    Except VfcError (List (String × Arb)) :=
  match entries with
  | [] => .ok []
  | (name, sub) :: rest => do
    let a ← inputWithPath b sub (path ++ "." ++ name)
    let tail ← inputFields b rest path
    pure ((name, a) :: tail)

/-- Build the position generators of a tuple schema, with the diagnostic
path extended by `"[index]"`. -/
def inputItems (b : Builder) (items : List Schema) (path : String) (index : ℕ) :
    Except VfcError (List Arb) :=
  match items with
  | [] => .ok []
  | item :: rest => do
    let a ← inputWithPath b item (path ++ "[" ++ toString index ++ "]")
    let tail ← inputItems b rest path (index + 1)
    pure (a :: tail)

/-- Build the option generators of a union schema, in declared order, with
the diagnostic path unchanged. -/
def inputOptions (b : Builder) (options : List Schema) (path : String) :
    Except VfcError (List Arb) :=
  match options with
  | [] => .ok []
  | option :: rest => do
    let a ← inputWithPath b option path
    let tail ← inputOptions b rest path
    pure (a :: tail)

end

/-- `inputOf` from `src/src/index.ts`: build with the empty diagnostic
path. -/
def inputOf (b : Builder) (schema : Schema) : Except VfcError Arb :=
  inputWithPath b schema ""

/-! ## The external validator (`safeParse`) -/

/-- One string validation entry, as the external validator checks it. -/
def stringPipePasses (s : String) (p : Pipe) : Bool :=
  if p.kind == "validation" then
    match p.type with
    | "min_length" => p.requirement.asNat ≤ s.length
    | "max_length" => s.length ≤ p.requirement.asNat
    | "length" => s.length == p.requirement.asNat
    | "starts_with" => strStarts s p.requirement.asStr
    | "ends_with" => strEnds s p.requirement.asStr
    | "includes" => strIncl s p.requirement.asStr
    | "non_empty" => decide (0 < s.length)
    | "value" => s == p.requirement.asStr
    | "values" => p.requirement.asStrs.contains s
    | "regex" =>
      match p.requirement with
      | .regex t => t s
      | _ => true
    | _ => true
  else true

/-- One number validation entry, as the external validator checks it. -/
def numberPipePasses (q : ℚ) (p : Pipe) : Bool :=
  if p.kind == "validation" then
    match p.type with
    | "min_value" => p.requirement.asNum ≤ q
    | "max_value" => q ≤ p.requirement.asNum
    | "gt_value" => p.requirement.asNum < q
    | "lt_value" => q < p.requirement.asNum
    | "integer" => qIsInt q
    | "multiple_of" => qIsInt (q / p.requirement.asNum)
    | "safe_integer" => qIsInt q && decide (MIN_SAFE_INTEGER ≤ q) && decide (q ≤ MAX_SAFE_INTEGER)
    | "value" => q == p.requirement.asNum
    | "values" => p.requirement.asNums.contains q
    | _ => true
  else true

/-- One boolean validation entry, as the external validator checks it. -/
def booleanPipePasses (b : Bool) (p : Pipe) : Bool :=
  if p.kind == "validation" then
    match p.type with
    | "value" => b == p.requirement.truthy
    | "not_value" => b != p.requirement.truthy
    | _ => true
  else true

/-- Modelled from the spec: `validate(schema, value) -> {success, …}` of the
external validation library (its `safeParse`), which is consumed but not
owned by this repository.  A value is accepted when it has the schema's
base type and satisfies every validation of the constraint pipeline.
Scalar validations the claims exercise are modelled exactly; validation
tags and composite schema kinds outside the model are treated as accepting,
so `validates … = false` is a conclusive rejection. -/
def validates (schema : Schema) (v : Value) : Bool :=
  match schema, v with
  | .string _ pipe, .vStr s => (pipe.getD []).all (stringPipePasses s)
  | .string _ _, _ => false
  | .number _ pipe, .vNum q => (pipe.getD []).all (numberPipePasses q)
  | .number _ pipe, .vNaN => (pipe.getD []).isEmpty
  | .number _ _, _ => false
  | .boolean _ pipe, .vBool b => (pipe.getD []).all (booleanPipePasses b)
  | .boolean _ _, _ => false
  | .bigint _ _, .vBigInt _ => true
  | .bigint _ _, _ => false
  | .date _ _, .vDate _ => true
  | .date _ _, _ => false
  | _, _ => true

/-! ## The support of a generator

`ArbMem a v` means the value `v` is a possible sample of the embedded
arbitrary `a`.  The support of the dedicated format generators (`uuid`,
`email`, `webUrl`), of `funcArb` / `symbolArb` and of `mapEntries` is left
unspecified: no claim samples from them. -/

/-- `fc.date()` lower default bound (the JavaScript `Date` range). -/
def dateLowerDefault : ℤ := -8640000000000000

/-- `fc.date()` upper default bound. -/
def dateUpperDefault : ℤ := 8640000000000000

/-- `fc.bigInt()` lower default bound (256-bit). -/
def bigIntLowerDefault : ℤ := -(2 ^ 256)

/-- `fc.bigInt()` upper default bound. -/
def bigIntUpperDefault : ℤ := 2 ^ 256 - 1

/-- The possible samples of each embedded fast-check combinator. -/
inductive ArbMem : Arb → Value → Prop where
  | const (v : Value) : ArbMem (.const v) v
  | constantFrom {vs : List Value} {v : Value} : v ∈ vs →
      ArbMem (.constantFrom vs) v
  | boolean (b : Bool) : ArbMem .boolean (.vBool b)
  | stringAny (s : String) : ArbMem .stringAny (.vStr s)
  | stringRange {lo hi : ℕ} {s : String} : lo ≤ s.length → s.length ≤ hi →
      ArbMem (.stringRange lo hi) (.vStr s)
  | doubleAny (q : ℚ) : ArbMem .doubleAny (.vNum q)
  | doubleRange {lo hi q : ℚ} : lo ≤ q → q ≤ hi →
      ArbMem (.doubleRange lo hi) (.vNum q)
  | intRange {lo hi k : ℤ} : lo ≤ k → k ≤ hi →
      ArbMem (.intRange lo hi) (.vNum (k : ℚ))
  | bigIntAny (n : ℤ) : ArbMem .bigIntAny (.vBigInt n)
  | bigIntRange {lo hi : Option ℤ} {n : ℤ} :
      lo.getD bigIntLowerDefault ≤ n → n ≤ hi.getD bigIntUpperDefault →
      ArbMem (.bigIntRange lo hi) (.vBigInt n)
  | dateAny {t : ℤ} : dateLowerDefault ≤ t → t ≤ dateUpperDefault →
      ArbMem .dateAny (.vDate t)
  | dateRange {lo hi : Option ℤ} {t : ℤ} :
      lo.getD dateLowerDefault ≤ t → t ≤ hi.getD dateUpperDefault →
      ArbMem (.dateRange lo hi) (.vDate t)
  | anything (v : Value) : ArbMem .anything v
  | mapA {f : Value → Value} {a : Arb} {v : Value} : ArbMem a v →
      ArbMem (.mapA f a) (f v)
  | filterA {p : Value → Bool} {a : Arb} {v : Value} : ArbMem a v →
      p v = true → ArbMem (.filterA p a) v
  | filterSchema {schema : Schema} {path : String} {a : Arb} {v : Value} :
      ArbMem a v → validates schema v = true →
      ArbMem (.filterSchema schema path a) v
  | oneofW {alts : List (ℕ × Arb)} {w : ℕ} {a : Arb} {v : Value} :
      (w, a) ∈ alts → 0 < w → ArbMem a v → ArbMem (.oneofW alts) v
  | oneofU {alts : List Arb} {a : Arb} {v : Value} : a ∈ alts →
      ArbMem a v → ArbMem (.oneofU alts) v
  | arrayOf {a : Arb} {lo hi : ℕ} {vs : List Value} : lo ≤ vs.length →
      vs.length ≤ hi → (∀ v ∈ vs, ArbMem a v) →
      ArbMem (.arrayOf a lo hi) (.vArr vs)
  | uniqueArrayOf {a : Arb} {lo hi : ℕ} {vs : List Value} : lo ≤ vs.length →
      vs.length ≤ hi → (∀ v ∈ vs, ArbMem a v) →
      ArbMem (.uniqueArrayOf a lo hi) (.vArr vs)
  | tupleA {parts : List Arb} {vs : List Value} :
      parts.length = vs.length →
      (∀ i (h1 : i < parts.length) (h2 : i < vs.length),
        ArbMem (parts.get ⟨i, h1⟩) (vs.get ⟨i, h2⟩)) →
      ArbMem (.tupleA parts) (.vArr vs)
  | recordA {fields : List (String × Arb)} {vs : List (String × Value)} :
      fields.length = vs.length →
      (∀ i (h1 : i < fields.length) (h2 : i < vs.length),
        (fields.get ⟨i, h1⟩).1 = (vs.get ⟨i, h2⟩).1) →
      (∀ i (h1 : i < fields.length) (h2 : i < vs.length),
        ArbMem (fields.get ⟨i, h1⟩).2 (vs.get ⟨i, h2⟩).2) →
      ArbMem (.recordA fields) (.vObj vs)

/-! ## Concrete scenarios used by the claims -/

/-- `v.pipe(v.string(), v.maxLength(3), v.startsWith("ab"))` — a satisfiable
string schema combining a recognized length bound with a recognized
prefix-injection mapping. -/
def lengthPrefixSchema : Schema :=
  .string 50 (some
    [⟨"validation", "max_length", .num 3⟩,
     ⟨"validation", "starts_with", .str "ab"⟩])

/-- The generator the string strategy builds for `lengthPrefixSchema`:
base strings of length 0–3, then the prefix mapping. -/
def lengthPrefixArb : Arb :=
  .mapA (strMap (fun s => "ab" ++ s)) (.stringRange 0 3)

/-- A schema object with `type: "totally_custom"`. -/
def totallyCustomSchema : Schema := .unsupported 1 "totally_custom"

/-- An object schema with the unsupported schema nested as field `x`. -/
def nestedCustomSchema : Schema := .object 0 [("x", totallyCustomSchema)]

/-- `v.pipe(v.string(), v.value("a"))` — a string schema with an equality
constraint. -/
def stringValueSchema : Schema :=
  .string 20 (some [⟨"validation", "value", .str "a"⟩])

/-- `v.pipe(v.number(), v.minValue(67), v.maxValue(99), v.multipleOf(10))`. -/
def multipleOfSchema : Schema :=
  .number 30 (some
    [⟨"validation", "min_value", .num 67⟩,
     ⟨"validation", "max_value", .num 99⟩,
     ⟨"validation", "multiple_of", .num 10⟩])

/-- The resolved bounds the number strategy computes for
`multipleOfSchema`. -/
def multipleOfResolvedAcc : NumAcc :=
  { minValue := 67
    maxValue := 99
    multipleOf := some 10
    isFinite := false
    hasUnsupportedFormat := false }

/-- A number schema with a single `gt_value r` constraint. -/
def gtValueSchema (r : ℚ) : Schema :=
  .number 31 (some [⟨"validation", "gt_value", .num r⟩])

/-- A number schema with a single `lt_value r` constraint. -/
def ltValueSchema (r : ℚ) : Schema :=
  .number 32 (some [⟨"validation", "lt_value", .num r⟩])

/-- A date schema with a single `gt_value r` constraint. -/
def dateGtSchema (r : ℤ) : Schema :=
  .date 33 (some [⟨"validation", "gt_value", .date r⟩])

/-- A date schema with a single `lt_value r` constraint. -/
def dateLtSchema (r : ℤ) : Schema :=
  .date 34 (some [⟨"validation", "lt_value", .date r⟩])

/-- `v.optional(v.boolean())`. -/
def optionalBooleanSchema : Schema := .optional 40 (.boolean 41 none)

/-- A builder holding one override, registered for the identity of
`totallyCustomSchema`. -/
def overriddenBuilder : Builder :=
  vfcNew.override totallyCustomSchema (.const (.vBool true))

/-! # Theorems -/

/-! ## The success-rate guard -/

/-- Characterization of the guard loop from an arbitrary counter state:
the run raises iff some processed prefix of length `n ≥ 1` pushes the
total strictly past `MIN_RUNS` with a running success rate below the
threshold. -/
theorem guardRunFrom_error_iff (rate : ℚ) (path : String) :
    ∀ (outcomes : List Bool) (s t : ℕ),
      (∃ e, guardRunFrom rate path ⟨s, t⟩ outcomes = .error e) ↔
      ∃ n, 1 ≤ n ∧ n ≤ outcomes.length ∧ MIN_RUNS < t + n ∧
        ((s + (outcomes.take n).count true : ℕ) : ℚ) / ((t + n : ℕ) : ℚ) < rate := by
  intro outcomes
  induction outcomes with
  | nil =>
    intro s t
    constructor
    · rintro ⟨e, he⟩
      simp [guardRunFrom] at he
    · rintro ⟨n, h1, h2, h3, h4⟩
      simp at h2
      omega
  | cons b rest ih =>
    intro s t
    have hstep : guardRunFrom rate path ⟨s, t⟩ (b :: rest) =
        if MIN_RUNS < t + 1 ∧
            ((s + (if b then 1 else 0) : ℕ) : ℚ) / ((t + 1 : ℕ) : ℚ) < rate
        then .error (generationFailureMessage path)
        else guardRunFrom rate path ⟨s + (if b then 1 else 0), t + 1⟩ rest := by
      by_cases h : MIN_RUNS < t + 1 ∧
          ((s + (if b then 1 else 0) : ℕ) : ℚ) / ((t + 1 : ℕ) : ℚ) < rate
      · rw [if_pos h]
        simp only [guardRunFrom, guardEval]
        rw [if_pos h]
      · rw [if_neg h]
        simp only [guardRunFrom, guardEval]
        rw [if_neg h]
    rw [hstep]
    by_cases hc : MIN_RUNS < t + 1 ∧
        ((s + (if b then 1 else 0) : ℕ) : ℚ) / ((t + 1 : ℕ) : ℚ) < rate
    · rw [if_pos hc]
      constructor
      · intro _
        refine ⟨1, le_refl 1, by simp, by omega, ?_⟩
        simpa [List.count_cons] using hc.2
      · intro _
        exact ⟨generationFailureMessage path, rfl⟩
    · rw [if_neg hc]
      rw [ih]
      constructor
      · rintro ⟨n, h1, h2, h3, h4⟩
        refine ⟨n + 1, by omega, by simpa using h2, by omega, ?_⟩
        have ht : (b :: rest).take (n + 1) = b :: rest.take n := rfl
        rw [ht]
        have hcount : (b :: rest.take n).count true =
            (rest.take n).count true + (if b then 1 else 0) := by
          cases b <;> simp [List.count_cons]
        rw [hcount]
        have harith : s + ((rest.take n).count true + (if b then 1 else 0)) =
            s + (if b then 1 else 0) + (rest.take n).count true := by omega
        rw [harith]
        have htn : t + (n + 1) = t + 1 + n := by omega
        rw [htn]
        exact h4
      · rintro ⟨m, h1, h2, h3, h4⟩
        rcases m with _ | n
        · omega
        rcases n with _ | n
        · exfalso
          apply hc
          constructor
          · omega
          · simpa [List.count_cons] using h4
        · refine ⟨n + 1, by omega, by simpa using h2, by omega, ?_⟩
          have ht : (b :: rest).take (n + 1 + 1) = b :: rest.take (n + 1) := rfl
          rw [ht] at h4
          have hcount : (b :: rest.take (n + 1)).count true =
              (rest.take (n + 1)).count true + (if b then 1 else 0) := by
            cases b <;> simp [List.count_cons]
          rw [hcount] at h4
          have harith : s + ((rest.take (n + 1)).count true + (if b then 1 else 0)) =
              s + (if b then 1 else 0) + (rest.take (n + 1)).count true := by omega
          rw [harith] at h4
          have htn : t + (n + 1 + 1) = t + 1 + (n + 1) := by omega
          rw [htn] at h4
          exact h4

/-- The guard loop only ever raises the `GenerationFailure` message built
for its own diagnostic path. -/
theorem guardRunFrom_error_msg (rate : ℚ) (path : String) :
    ∀ (outcomes : List Bool) (st : GuardState) (e : String),
      guardRunFrom rate path st outcomes = .error e →
      e = generationFailureMessage path := by
  intro outcomes
  induction outcomes with
  | nil =>
    intro st e he
    simp [guardRunFrom] at he
  | cons b rest ih =>
    intro st e he
    rw [guardRunFrom] at he
    cases hev : guardEval rate path b st with
    | error e2 =>
      rw [hev] at he
      simp only [Except.error.injEq] at he
      rw [guardEval] at hev
      split_ifs at hev <;>
        (simp only [Except.error.injEq] at hev
         rw [← he, ← hev])
    | ok p =>
      rw [hev] at he
      exact ih _ e he

/-- The `GenerationFailure` message contains the rendered diagnostic path
(empty path rendering as `.`) and recommends supplying an override. -/
theorem msg_decomp (path : String) :
    (∃ p q, generationFailureMessage path =
      p ++ ((if path = "" then "." else path) ++ q)) ∧
    (∃ p q, generationFailureMessage path = p ++ ("override" ++ q)) := by
  constructor
  · refine ⟨"Unable to generate valid values for the passed Valibot schema. " ++
      "Please provide an override for the schema at path '", "'.", ?_⟩
    rw [generationFailureMessage]
    rw [String.append_assoc]
  · refine ⟨"Unable to generate valid values for the passed Valibot schema. " ++
      "Please provide an ",
      " for the schema at path '" ++ ((if path = "" then "." else path) ++ "'."), ?_⟩
    rw [generationFailureMessage]
    simp only [← String.append_assoc]
    rfl

/-- **C3.**  The fallback filter guard raises a `GenerationFailure` error
exactly when, strictly after the first `MIN_RUNS = 1000` predicate
evaluations of that guard's own counter, the running success rate
(successes over total evaluations) is below the `MIN_SUCCESS_RATE = 1%`
threshold; it never raises during the first 1000 evaluations; and the
error message names the rendered diagnostic path (empty path rendering as
`.`) and recommends supplying an override. -/
theorem C3_guard_success_rate (path : String) (outcomes : List Bool) :
    ((∃ e, guardRun MIN_SUCCESS_RATE path outcomes = .error e) ↔
      ∃ n, n ≤ outcomes.length ∧ MIN_RUNS < n ∧
        (((outcomes.take n).count true : ℕ) : ℚ) / ((n : ℕ) : ℚ) < MIN_SUCCESS_RATE)
    ∧ (outcomes.length ≤ MIN_RUNS →
        ∀ e, guardRun MIN_SUCCESS_RATE path outcomes ≠ .error e)
    ∧ (∀ e, guardRun MIN_SUCCESS_RATE path outcomes = .error e →
        e = generationFailureMessage path ∧
        (∃ p q, e = p ++ ((if path = "" then "." else path) ++ q)) ∧
        (∃ p q, e = p ++ ("override" ++ q))) := by
  have hiff := guardRunFrom_error_iff MIN_SUCCESS_RATE path outcomes 0 0
  refine ⟨?_, ?_, ?_⟩
  · rw [guardRun, hiff]
    constructor
    · rintro ⟨n, h1, h2, h3, h4⟩
      exact ⟨n, h2, by simpa using h3, by simpa using h4⟩
    · rintro ⟨n, h2, h3, h4⟩
      refine ⟨n, ?_, h2, by simpa using h3, by simpa using h4⟩
      have : MIN_RUNS < n := h3
      unfold MIN_RUNS at this
      omega
  · intro hlen e he
    obtain ⟨n, h1, h2, h3, h4⟩ := hiff.mp ⟨e, he⟩
    omega
  · intro e he
    have hmsg := guardRunFrom_error_msg MIN_SUCCESS_RATE path outcomes ⟨0, 0⟩ e he
    exact ⟨hmsg, hmsg ▸ (msg_decomp path).1, hmsg ▸ (msg_decomp path).2⟩

/-- Witness for C3: a guard fed 1001 failing evaluations raises, while one
fed only 1000 failing evaluations does not. -/
theorem C3_guard_success_rate_witness :
    (∃ e, guardRun MIN_SUCCESS_RATE "" (List.replicate 1001 false) = .error e) ∧
    (∀ e, guardRun MIN_SUCCESS_RATE "" (List.replicate 1000 false) ≠ .error e) := by
  constructor
  · refine (C3_guard_success_rate "" (List.replicate 1001 false)).1.mpr
      ⟨1001, by rw [List.length_replicate], by norm_num [MIN_RUNS], ?_⟩
    rw [List.take_replicate]
    norm_num [MIN_SUCCESS_RATE, List.count_replicate]
  · exact fun e =>
      (C3_guard_success_rate "" (List.replicate 1000 false)).2.1
        (by rw [List.length_replicate]; norm_num [MIN_RUNS]) e

/-! ## The override registry -/

/-- `Map.set` followed by `Map.get`: the new key maps to the new entry,
every other key is untouched. -/
theorem mapGet_mapSet (l : List (ℕ × OverrideEntry)) (key : ℕ) (v : OverrideEntry) :
    ∀ k, mapGet (mapSet l key v) k = if k = key then some v else mapGet l k := by
  induction l with
  | nil =>
    intro k
    by_cases h : k = key
    · simp [mapSet, mapGet, h]
    · simp [mapSet, mapGet, h, Ne.symm h]
  | cons kv rest ih =>
    intro k
    obtain ⟨k0, v0⟩ := kv
    by_cases h0 : k0 = key
    · subst h0
      by_cases h : k = k0
      · simp [mapSet, mapGet, h]
      · simp [mapSet, mapGet, h, Ne.symm h]
    · by_cases h : k = key
      · subst h
        simp [mapSet, mapGet, h0, ih, Ne.symm h0]
      · simp [mapSet, mapGet, h0, h, ih]

/-- A key absent from an association list is not found. -/
theorem mapGet_eq_none (l : List (ℕ × OverrideEntry)) (k : ℕ)
    (h : k ∉ l.map Prod.fst) : mapGet l k = none := by
  induction l with
  | nil => rfl
  | cons kv rest ih =>
    simp only [List.map_cons, List.mem_cons] at h
    push_neg at h
    simp only [mapGet]
    rw [if_neg (fun hh => h.1 hh.symm)]
    exact ih h.2

/-- Replaying an association list with `Map.set` entry by entry (as `clone`
does with `forEach`) preserves every lookup, provided the source keys are
distinct (the `Map` invariant). -/
theorem mapGet_foldl_mapSet (l : List (ℕ × OverrideEntry)) :
    ∀ (acc : List (ℕ × OverrideEntry)), (l.map Prod.fst).Nodup → ∀ k,
      mapGet (l.foldl (fun a kv => mapSet a kv.1 kv.2) acc) k =
        if k ∈ l.map Prod.fst then mapGet l k else mapGet acc k := by
  induction l with
  | nil =>
    intro acc _ k
    simp [List.foldl]
  | cons kv rest ih =>
    intro acc hnd k
    obtain ⟨k0, v0⟩ := kv
    simp only [List.map_cons, List.nodup_cons] at hnd
    simp only [List.foldl_cons]
    rw [ih (mapSet acc k0 v0) hnd.2 k]
    by_cases hmem : k ∈ rest.map Prod.fst
    · have hk0 : k0 ≠ k := fun hh => hnd.1 (hh ▸ hmem)
      simp [hmem, mapGet, hk0]
    · by_cases h : k = k0
      · subst h
        simp [hmem, mapGet, mapGet_mapSet]
      · simp [hmem, mapGet, mapGet_mapSet, h, Ne.symm h]

/-- `clone` preserves every lookup of the receiver's registry. -/
theorem mapGet_clone (b : Builder) (hnd : (b.overrides.map Prod.fst).Nodup)
    (k : ℕ) : mapGet b.clone.overrides k = mapGet b.overrides k := by
  show mapGet (b.overrides.foldl (fun a kv => mapSet a kv.1 kv.2) []) k = _
  rw [mapGet_foldl_mapSet b.overrides [] hnd k]
  by_cases h : k ∈ b.overrides.map Prod.fst
  · rw [if_pos h]
  · rw [if_neg h, mapGet_eq_none b.overrides k h]
    rfl

/-- **C5.**  `override(schema, arbitrary)` returns a new builder whose
registry maps the schema's identity to the new entry and every other key
to exactly what the receiver's registry maps it to; the receiver's own
registry, being a value, is untouched.  The `Nodup` hypothesis is the key
uniqueness invariant of the JavaScript `Map` being modelled. -/
theorem C5_override_returns_extended_clone (b : Builder) (schema : Schema)
    (arbitrary : Arb) (hnd : (b.overrides.map Prod.fst).Nodup) (k : ℕ) :
    mapGet (b.override schema arbitrary).overrides k =
      if k = schema.ident then some (.plain arbitrary)
      else mapGet b.overrides k := by
  show mapGet (mapSet b.clone.overrides schema.ident (.plain arbitrary)) k = _
  rw [mapGet_mapSet]
  by_cases h : k = schema.ident
  · rw [if_pos h, if_pos h]
  · rw [if_neg h, if_neg h, mapGet_clone b hnd k]

/-- Witness for C5: extending a one-entry builder with an override for
`stringValueSchema` (identity 20) registers the new entry and leaves the
existing entry for identity 1 intact. -/
theorem C5_override_returns_extended_clone_witness :
    (overriddenBuilder.overrides.map Prod.fst).Nodup ∧
    mapGet (overriddenBuilder.override stringValueSchema (.const .vNull)).overrides
      stringValueSchema.ident = some (.plain (.const .vNull)) ∧
    mapGet (overriddenBuilder.override stringValueSchema (.const .vNull)).overrides 1 =
      mapGet overriddenBuilder.overrides 1 := by
  have hnd : (overriddenBuilder.overrides.map Prod.fst).Nodup := by
    show ([1] : List ℕ).Nodup
    decide
  refine ⟨hnd, ?_, ?_⟩
  · rw [C5_override_returns_extended_clone overriddenBuilder stringValueSchema
      (.const .vNull) hnd stringValueSchema.ident]
    rw [if_pos rfl]
  · rw [C5_override_returns_extended_clone overriddenBuilder stringValueSchema
      (.const .vNull) hnd 1]
    rfl

/-- **C4.**  When the schema's identity has a registered override, the
dispatcher returns the override's generator (a function-valued override
resolving to the generator it produces for the current builder) and
bypasses everything else: no strategy runs, the schema's constraints are
never read, and this holds whatever the schema — including one whose type
tag is unsupported. -/
theorem C4_override_bypasses_dispatch (b : Builder) (schema : Schema)
    (path : String) (entry : OverrideEntry)
    (h : mapGet b.overrides schema.ident = some entry) :
    inputWithPath b schema path = .ok (resolveOverride entry) := by
  rw [inputWithPath]
  rw [findOverride, h]
  rfl

/-- Witness for C4: a builder with an override registered for the identity
of a schema of unsupported type `totally_custom` returns the override's
generator instead of raising `UnsupportedSchemaType`. -/
theorem C4_override_bypasses_dispatch_witness :
    mapGet overriddenBuilder.overrides totallyCustomSchema.ident =
      some (.plain (.const (.vBool true))) ∧
    isSupportedSchemaType totallyCustomSchema = false ∧
    inputWithPath overriddenBuilder totallyCustomSchema ".x" =
      .ok (.const (.vBool true)) := by
  refine ⟨rfl, rfl, ?_⟩
  exact C4_override_bypasses_dispatch overriddenBuilder totallyCustomSchema ".x"
    (.plain (.const (.vBool true))) rfl

/-! ## The number strategy -/

/-- The generator the number strategy builds for `multipleOfSchema`:
integers 7–9 scaled by 10. -/
theorem multipleOf_build (path : String) :
    buildNumberArbitrary multipleOfSchema path =
      .mapA (numScale 10) (.intRange 7 9) := by
  simp only [buildNumberArbitrary, multipleOfSchema, Schema.pipeOf, numResolve,
    initNumAcc, List.filter, Req.asNum, MIN_SAFE_INTEGER, MAX_SAFE_INTEGER]
  norm_num [max_def, min_def, Int.ceil_eq_iff, Int.floor_eq_iff]

/-- The resolved bounds computed for `multipleOfSchema` are
`[67, 99]` with factor 10. -/
theorem numResolve_multipleOf :
    numResolve (([⟨"validation", "min_value", .num 67⟩,
      ⟨"validation", "max_value", .num 99⟩,
      ⟨"validation", "multiple_of", .num 10⟩] : List Pipe).filter
        (fun p => p.kind == "validation")) initNumAcc =
      .inl multipleOfResolvedAcc := by
  simp only [numResolve, initNumAcc, List.filter, Req.asNum, MIN_SAFE_INTEGER,
    MAX_SAFE_INTEGER, multipleOfResolvedAcc]
  norm_num [max_def, min_def]

/-- Whenever the number strategy resolves a multiple-of factor, every
possible sample is the factor times an integer drawn from
`[⌈min/factor⌉, ⌊max/factor⌋]`. -/
theorem numMultipleOf_support (i : ℕ) (pipes : List Pipe) (path : String)
    (acc : NumAcc) (factor : ℚ)
    (h1 : numResolve (pipes.filter (fun p => p.kind == "validation"))
      initNumAcc = .inl acc)
    (h2 : acc.multipleOf = some factor) :
    ∀ v, ArbMem (buildNumberArbitrary (.number i (some pipes)) path) v →
      ∃ k : ℤ, ⌈acc.minValue / factor⌉ ≤ k ∧ k ≤ ⌊acc.maxValue / factor⌋ ∧
        v = .vNum ((k : ℚ) * factor) := by
  intro v hv
  unfold buildNumberArbitrary at hv
  simp only [Schema.pipeOf] at hv
  rw [h1] at hv
  simp only at hv
  rw [h2] at hv
  simp only at hv
  have hcore : ArbMem (.mapA (numScale factor)
      (.intRange ⌈acc.minValue / factor⌉ ⌊acc.maxValue / factor⌋)) v := by
    by_cases hf : acc.hasUnsupportedFormat
    · simp only [hf, if_true, filterBySchema] at hv
      cases hv with
      | filterSchema hsub hval => exact hsub
    · simp only [hf, if_false] at hv
      exact hv
  cases hcore with
  | mapA hsub =>
    cases hsub with
    | intRange hlo hhi => exact ⟨_, hlo, hhi, rfl⟩

/-- The support of the generator for `multipleOfSchema` is exactly
`{70, 80, 90}`. -/
theorem multipleOf_members (path : String) :
    ∀ v, ArbMem (buildNumberArbitrary multipleOfSchema path) v ↔
      (v = .vNum 70 ∨ v = .vNum 80 ∨ v = .vNum 90) := by
  intro v
  rw [multipleOf_build path]
  constructor
  · intro hv
    cases hv with
    | mapA hsub =>
      cases hsub with
      | intRange hlo hhi =>
        rename_i k
        interval_cases k
        · left; norm_num [numScale]
        · right; left; norm_num [numScale]
        · right; right; norm_num [numScale]
  · intro hv
    rcases hv with h | h | h
    · have he : Value.vNum 70 = numScale 10 (Value.vNum ((7 : ℤ) : ℚ)) := by
        norm_num [numScale]
      rw [h, he]
      exact ArbMem.mapA (ArbMem.intRange (by norm_num) (by norm_num))
    · have he : Value.vNum 80 = numScale 10 (Value.vNum ((8 : ℤ) : ℚ)) := by
        norm_num [numScale]
      rw [h, he]
      exact ArbMem.mapA (ArbMem.intRange (by norm_num) (by norm_num))
    · have he : Value.vNum 90 = numScale 10 (Value.vNum ((9 : ℤ) : ℚ)) := by
        norm_num [numScale]
      rw [h, he]
      exact ArbMem.mapA (ArbMem.intRange (by norm_num) (by norm_num))

/-- **C6.**  When the resolved constraints of a number schema include a
multiple-of factor, every sampled value equals the factor times an integer
`k` with `⌈min/factor⌉ ≤ k ≤ ⌊max/factor⌋`; in particular for
`multipleOf = 10` with `minValue = 67` and `maxValue = 99` the support is
exactly `{70, 80, 90}`. -/
theorem C6_multiple_of_sampling (i : ℕ) (pipes : List Pipe) (path : String)
    (acc : NumAcc) (factor : ℚ) :
    ((numResolve (pipes.filter (fun p => p.kind == "validation"))
        initNumAcc = .inl acc) →
      acc.multipleOf = some factor →
      ∀ v, ArbMem (buildNumberArbitrary (.number i (some pipes)) path) v →
        ∃ k : ℤ, ⌈acc.minValue / factor⌉ ≤ k ∧ k ≤ ⌊acc.maxValue / factor⌋ ∧
          v = .vNum ((k : ℚ) * factor))
    ∧ (∀ v, ArbMem (buildNumberArbitrary multipleOfSchema path) v ↔
        (v = .vNum 70 ∨ v = .vNum 80 ∨ v = .vNum 90)) :=
  ⟨fun h1 h2 => numMultipleOf_support i pipes path acc factor h1 h2,
   multipleOf_members path⟩

/-- Witness for C6: `70` is a possible sample for `multipleOfSchema` and is
`10 · k` for an integer `k` within the divided bounds. -/
theorem C6_multiple_of_sampling_witness :
    ArbMem (buildNumberArbitrary multipleOfSchema "") (.vNum 70) ∧
    (∃ k : ℤ, ⌈multipleOfResolvedAcc.minValue / 10⌉ ≤ k ∧
      k ≤ ⌊multipleOfResolvedAcc.maxValue / 10⌋ ∧
      Value.vNum 70 = .vNum ((k : ℚ) * 10)) := by
  have hthm := C6_multiple_of_sampling 30
    [⟨"validation", "min_value", .num 67⟩,
     ⟨"validation", "max_value", .num 99⟩,
     ⟨"validation", "multiple_of", .num 10⟩] "" multipleOfResolvedAcc 10
  have hmem : ArbMem (buildNumberArbitrary multipleOfSchema "") (.vNum 70) :=
    (hthm.2 (.vNum 70)).mpr (Or.inl rfl)
  exact ⟨hmem, hthm.1 numResolve_multipleOf rfl (.vNum 70) hmem⟩

/-! ### IEEE-754 rounding facts for the strict-inequality adjustment -/

/-- Rounding an integer to the nearest integer is the identity. -/
theorem roundNearestEven_intCast (n : ℤ) : roundNearestEven ((n : ℚ)) = n := by
  unfold roundNearestEven
  rw [Int.floor_intCast]
  norm_num

/-- A rational whose mantissa-window scaling is an integer is a binary64
value and rounds to itself. -/
theorem roundPos_eq_self {q : ℚ} {n : ℤ}
    (h : q * 2 ^ ((52 : ℤ) - Int.log 2 q) = (n : ℚ)) : roundPos q = q := by
  unfold roundPos
  rw [h, roundNearestEven_intCast, ← h, mul_assoc,
    ← zpow_add₀ (by norm_num : (2 : ℚ) ≠ 0)]
  have hz : (52 : ℤ) - Int.log 2 q + (Int.log 2 q - 52) = 0 := by ring
  rw [hz, zpow_zero, mul_one]

/-- Positive integers up to `2 ^ 53` are exactly representable. -/
theorem roundPos_intCast (n : ℤ) (h0 : 0 < n) (h2 : n ≤ 2 ^ 53) :
    roundPos ((n : ℚ)) = (n : ℚ) := by
  have hq : (0 : ℚ) < (n : ℚ) := by exact_mod_cast h0
  have h254 : (2 : ℚ) ^ (54 : ℤ) = 2 ^ (54 : ℕ) := by
    rw [show ((54 : ℤ)) = ((54 : ℕ) : ℤ) from rfl, zpow_natCast]
  have h253 : (2 : ℚ) ^ (53 : ℤ) = 2 ^ (53 : ℕ) := by
    rw [show ((53 : ℤ)) = ((53 : ℕ) : ℤ) from rfl, zpow_natCast]
  have hub : ((n : ℚ)) < (2 : ℚ) ^ (54 : ℤ) := by
    have hn : ((n : ℚ)) ≤ ((2 ^ 53 : ℤ) : ℚ) := by exact_mod_cast h2
    rw [h254]
    push_cast at hn
    nlinarith [hn]
  have hle : Int.log 2 ((n : ℚ)) ≤ 53 := by
    have := (Int.lt_zpow_iff_log_lt (b := 2) (by norm_num) hq).mp hub
    omega
  rcases lt_or_eq_of_le hle with h53 | h53
  · -- log ≤ 52: the scaled value is the integer n * 2^(52 - log)
    set k : ℕ := (52 - Int.log 2 ((n : ℚ))).toNat with hkdef
    apply roundPos_eq_self (n := n * 2 ^ k)
    have hk : ((52 : ℤ) - Int.log 2 ((n : ℚ))) = (k : ℤ) := by
      rw [hkdef]
      exact (Int.toNat_of_nonneg (by omega)).symm
    rw [hk, zpow_natCast]
    push_cast
    ring
  · -- log = 53 forces n = 2^53; the scaled value is 2^52
    have hge : (2 : ℚ) ^ (53 : ℤ) ≤ ((n : ℚ)) := by
      have := Int.zpow_log_le_self (b := 2) (by norm_num) hq
      rw [h53] at this
      exact this
    have hn : n = 2 ^ 53 := by
      rw [h253] at hge
      have : ((2 ^ 53 : ℤ) : ℚ) ≤ (n : ℚ) := by
        push_cast
        exact hge
      exact le_antisymm h2 (by exact_mod_cast this)
    apply roundPos_eq_self (n := 2 ^ 52)
    rw [h53, hn]
    push_cast
    rw [zpow_neg_one]
    norm_num

/-- Integers of magnitude at most `2 ^ 53` are exactly representable. -/
theorem roundDouble_intCast (n : ℤ) (h1 : -(2 ^ 53) ≤ n) (h2 : n ≤ 2 ^ 53) :
    roundDouble ((n : ℚ)) = (n : ℚ) := by
  unfold roundDouble
  rcases lt_trichotomy n 0 with h | h | h
  · have hneg : ((n : ℚ)) < 0 := by exact_mod_cast h
    rw [if_neg (by exact_mod_cast h.ne), if_neg (not_lt.mpr hneg.le)]
    have hcast : -((n : ℚ)) = (((-n : ℤ)) : ℚ) := by push_cast; ring
    rw [hcast, roundPos_intCast (-n) (by omega) (by omega)]
    push_cast
    ring
  · subst h
    norm_num
  · rw [if_neg (by exact_mod_cast h.ne'), if_pos (by exact_mod_cast h)]
    exact roundPos_intCast n h h2

/-- Adding a half to an even integer rounds back down (ties to even). -/
theorem roundNearestEven_add_half_even (m : ℤ) (hm : m % 2 = 0) :
    roundNearestEven ((m : ℚ) + 1 / 2) = m := by
  have hfl : ⌊(m : ℚ) + 1 / 2⌋ = m := by
    rw [Int.floor_eq_iff]
    constructor
    · norm_num
    · norm_num
  unfold roundNearestEven
  simp only [hfl]
  ring_nf
  norm_num [hm]

/-- The binary exponent of `2.5 + Number.EPSILON` is 1. -/
theorem log_five_half_eps : Int.log 2 ((5 / 2 : ℚ) + qEpsilon) = 1 := by
  have h0 : (0 : ℚ) < 5 / 2 + qEpsilon := by norm_num [qEpsilon]
  have h1 : (2 : ℚ) ^ (1 : ℤ) ≤ 5 / 2 + qEpsilon := by
    rw [zpow_one]
    norm_num [qEpsilon]
  have h2 : (5 / 2 : ℚ) + qEpsilon < (2 : ℚ) ^ ((1 : ℤ) + 1) := by
    rw [show ((1 : ℤ) + 1) = ((2 : ℕ) : ℤ) from rfl, zpow_natCast]
    norm_num [qEpsilon]
  have ha : (1 : ℤ) ≤ Int.log 2 ((5 / 2 : ℚ) + qEpsilon) :=
    (Int.zpow_le_iff_le_log (by norm_num) h0).mp h1
  have hb : Int.log 2 ((5 / 2 : ℚ) + qEpsilon) < (1 : ℤ) + 1 :=
    (Int.lt_zpow_iff_log_lt (by norm_num) h0).mp h2
  omega

/-- The IEEE-754 no-op at the heart of the correction: the exact sum
`2.5 + 2⁻⁵²` sits exactly halfway between the adjacent binary64 values
`2.5` and `2.5 + 2⁻⁵¹`, and ties-to-even keeps `2.5` (its mantissa is
even) — in JavaScript, `2.5 + Number.EPSILON === 2.5`. -/
theorem jsAdd_five_half_eps : jsAdd (5 / 2) qEpsilon = 5 / 2 := by
  unfold jsAdd roundDouble
  rw [if_neg (by norm_num [qEpsilon]), if_pos (by norm_num [qEpsilon])]
  unfold roundPos
  rw [log_five_half_eps]
  have hscale : ((5 / 2 : ℚ) + qEpsilon) * 2 ^ ((52 : ℤ) - 1) =
      ((5 * 2 ^ 50 : ℤ) : ℚ) + 1 / 2 := by
    rw [show ((52 : ℤ) - 1) = ((51 : ℕ) : ℤ) from rfl, zpow_natCast]
    push_cast
    norm_num [qEpsilon]
  rw [hscale, roundNearestEven_add_half_even (5 * 2 ^ 50) (by decide)]
  rw [show ((1 : ℤ) - 52) = (-((51 : ℕ) : ℤ)) from rfl, zpow_neg, zpow_natCast]
  push_cast
  norm_num

/-- For an integer-valued requirement in the exactly-representable range,
the one-unit adjustment `r + 1` is computed exactly. -/
theorem jsAdd_one_int (r : ℚ) (hint : qIsInt r = true)
    (hge : -(2 ^ 53 : ℚ) ≤ r) (hlt : r < (2 ^ 53 : ℚ)) : jsAdd r 1 = r + 1 := by
  have hden : r.den = 1 := by simpa [qIsInt] using hint
  have hr : ((r.num : ℚ)) = r := (Rat.den_eq_one_iff r).mp hden
  have hnlt : r.num < 2 ^ 53 := by
    rw [← hr] at hlt
    exact_mod_cast hlt
  have hnge : -(2 ^ 53) ≤ r.num := by
    rw [← hr] at hge
    exact_mod_cast hge
  have hcast : r + 1 = (((r.num + 1 : ℤ)) : ℚ) := by
    push_cast
    rw [hr]
  unfold jsAdd
  rw [hcast, roundDouble_intCast (r.num + 1) (by omega) (by omega)]

/-- Dual of `jsAdd_one_int` for the `lt_value` branch. -/
theorem jsSub_one_int (r : ℚ) (hint : qIsInt r = true)
    (hgt : -(2 ^ 53 : ℚ) < r) (hle : r ≤ (2 ^ 53 : ℚ)) : jsSub r 1 = r - 1 := by
  have hden : r.den = 1 := by simpa [qIsInt] using hint
  have hr : ((r.num : ℚ)) = r := (Rat.den_eq_one_iff r).mp hden
  have hnle : r.num ≤ 2 ^ 53 := by
    rw [← hr] at hle
    exact_mod_cast hle
  have hngt : -(2 ^ 53) < r.num := by
    rw [← hr] at hgt
    exact_mod_cast hgt
  have hcast : r - 1 = (((r.num - 1 : ℤ)) : ℚ) := by
    push_cast
    rw [hr]
  unfold jsSub
  rw [hcast, roundDouble_intCast (r.num - 1) (by omega) (by omega)]

/-- `jsAdd 50 1 = 51`: the integer adjustment at the witness input. -/
theorem jsAdd_fifty_one : jsAdd (50 : ℚ) 1 = 51 := by
  unfold jsAdd
  rw [show ((50 : ℚ) + 1) = (((51 : ℤ)) : ℚ) by norm_num]
  rw [roundDouble_intCast 51 (by norm_num) (by norm_num)]
  norm_num

/-- `jsSub 50 1 = 49`: the integer adjustment at the witness input. -/
theorem jsSub_fifty_one : jsSub (50 : ℚ) 1 = 49 := by
  unfold jsSub
  rw [show ((50 : ℚ) - 1) = (((49 : ℤ)) : ℚ) by norm_num]
  rw [roundDouble_intCast 49 (by norm_num) (by norm_num)]
  norm_num

/-! ### The strict-inequality strategy -/

/-- The generator the number strategy builds for a single `gt_value r`
constraint: the minimum is tightened to the IEEE-754 sum of `r` and one
unit (integer `r`) or machine epsilon (otherwise). -/
theorem gt_build (r : ℚ) (path : String) :
    buildNumberArbitrary (gtValueSchema r) path =
      .doubleRange (max MIN_SAFE_INTEGER
        (jsAdd r (if qIsInt r then 1 else qEpsilon))) MAX_SAFE_INTEGER := rfl

/-- Dual of `gt_build` for `lt_value r`. -/
theorem lt_build (r : ℚ) (path : String) :
    buildNumberArbitrary (ltValueSchema r) path =
      .doubleRange MIN_SAFE_INTEGER
        (min MAX_SAFE_INTEGER (jsSub r (if qIsInt r then 1 else qEpsilon))) := rfl

/-- For an integer requirement below `2 ^ 53`, every sample for
`gt_value r` is strictly above `r`. -/
theorem gt_bound (r : ℚ) (path : String) :
    qIsInt r = true → r < (2 ^ 53 : ℚ) →
    ∀ v, ArbMem (buildNumberArbitrary (gtValueSchema r) path) v →
      ∃ q : ℚ, v = .vNum q ∧ r < q := by
  intro hint hlt v hv
  rw [gt_build r path, if_pos hint] at hv
  cases hv with
  | doubleRange hlo hhi =>
    refine ⟨_, rfl, ?_⟩
    by_cases hcase : r < MIN_SAFE_INTEGER
    · have hm : MIN_SAFE_INTEGER ≤ max MIN_SAFE_INTEGER (jsAdd r 1) :=
        le_max_left _ _
      linarith
    · push_neg at hcase
      have hge : -(2 ^ 53 : ℚ) ≤ r := by
        have : -(2 ^ 53 : ℚ) ≤ MIN_SAFE_INTEGER := by
          norm_num [MIN_SAFE_INTEGER]
        linarith
      have hexact : jsAdd r 1 = r + 1 := jsAdd_one_int r hint hge hlt
      have hm : r + 1 ≤ max MIN_SAFE_INTEGER (jsAdd r 1) :=
        hexact ▸ le_max_right _ _
      linarith

/-- For an integer requirement above `-(2 ^ 53)`, every sample for
`lt_value r` is strictly below `r`. -/
theorem lt_bound (r : ℚ) (path : String) :
    qIsInt r = true → -(2 ^ 53 : ℚ) < r →
    ∀ v, ArbMem (buildNumberArbitrary (ltValueSchema r) path) v →
      ∃ q : ℚ, v = .vNum q ∧ q < r := by
  intro hint hgt v hv
  rw [lt_build r path, if_pos hint] at hv
  cases hv with
  | doubleRange hlo hhi =>
    refine ⟨_, rfl, ?_⟩
    by_cases hcase : MAX_SAFE_INTEGER < r
    · have hm : min MAX_SAFE_INTEGER (jsSub r 1) ≤ MAX_SAFE_INTEGER :=
        min_le_left _ _
      linarith
    · push_neg at hcase
      have hle : r ≤ (2 ^ 53 : ℚ) := by
        have : MAX_SAFE_INTEGER ≤ (2 ^ 53 : ℚ) := by
          norm_num [MAX_SAFE_INTEGER]
        linarith
      have hexact : jsSub r 1 = r - 1 := jsSub_one_int r hint hgt hle
      have hm : min MAX_SAFE_INTEGER (jsSub r 1) ≤ r - 1 :=
        hexact ▸ min_le_right _ _
      linarith

/-- `2.5` is not an integer. -/
theorem qIsInt_five_half : qIsInt (5 / 2 : ℚ) = false := by
  by_contra h
  have ht : qIsInt (5 / 2 : ℚ) = true := by
    cases hq : qIsInt (5 / 2 : ℚ) with
    | false => exact absurd hq h
    | true => rfl
  have hden : (5 / 2 : ℚ).den = 1 := by simpa [qIsInt] using ht
  have hr : (((5 / 2 : ℚ).num : ℚ)) = 5 / 2 := (Rat.den_eq_one_iff _).mp hden
  have h2 : ((2 * (5 / 2 : ℚ).num : ℤ) : ℚ) = 5 := by
    push_cast
    rw [hr]
    ring
  have h3 : (2 * (5 / 2 : ℚ).num : ℤ) = 5 := by exact_mod_cast h2
  omega

/-- The generator built for `gtValue(2.5)`: the epsilon adjustment is an
IEEE-754 no-op, so the minimum stays at `2.5` itself. -/
theorem gt_five_half_build :
    buildNumberArbitrary (gtValueSchema (5 / 2)) "" =
      .doubleRange (5 / 2) MAX_SAFE_INTEGER := by
  rw [gt_build]
  rw [if_neg (by simp [qIsInt_five_half])]
  rw [jsAdd_five_half_eps]
  norm_num [max_def, MIN_SAFE_INTEGER]

/-- **C7 (counterexample).**  For the non-integer requirement `r = 2.5`,
the source's `r + Number.EPSILON` rounds back to `2.5` (ties to even), so
the sampling minimum is `2.5` itself, `2.5` is a possible sample, and the
original claim — every sample strictly greater than `r`, never equal — is
false at `gtValue(2.5)`. -/
theorem C7_strict_inequality_counterexample :
    jsAdd (5 / 2) qEpsilon = 5 / 2 ∧
    buildNumberArbitrary (gtValueSchema (5 / 2)) "" =
      .doubleRange (5 / 2) MAX_SAFE_INTEGER ∧
    ArbMem (buildNumberArbitrary (gtValueSchema (5 / 2)) "") (.vNum (5 / 2)) ∧
    ¬ (∀ v, ArbMem (buildNumberArbitrary (gtValueSchema (5 / 2)) "") v →
        ∃ q : ℚ, v = .vNum q ∧ (5 / 2 : ℚ) < q) := by
  have hmem : ArbMem (buildNumberArbitrary (gtValueSchema (5 / 2)) "")
      (.vNum (5 / 2)) := by
    rw [gt_five_half_build]
    exact ArbMem.doubleRange (le_refl _) (by norm_num [MAX_SAFE_INTEGER])
  refine ⟨jsAdd_five_half_eps, gt_five_half_build, hmem, ?_⟩
  intro hall
  obtain ⟨q, hq, hgt⟩ := hall _ hmem
  have hq2 : (5 / 2 : ℚ) = q := Value.vNum.inj hq
  rw [← hq2] at hgt
  exact absurd hgt (by norm_num)

/-- **C7 (amended).**  A strict inequality constraint `gt_value r` (resp.
`lt_value r`) tightens the sampling minimum (resp. maximum) to the
IEEE-754 sum of `r` and one unit for integer `r`, machine epsilon
otherwise; for integer `r` in the exactly-representable range the
adjustment is exact, so every sample is strictly greater (resp. smaller)
than `r` and never equal to it — in particular every sample for
`gtValue(50)` is strictly above 50.  (For non-integer `|r| ≥ 2` the
epsilon addition can round back to `r`; see the counterexample.) -/
theorem C7_strict_inequality_bounds (r : ℚ) (path : String) :
    (buildNumberArbitrary (gtValueSchema r) path =
      .doubleRange (max MIN_SAFE_INTEGER
        (jsAdd r (if qIsInt r then 1 else qEpsilon))) MAX_SAFE_INTEGER)
    ∧ (qIsInt r = true → r < (2 ^ 53 : ℚ) →
        ∀ v, ArbMem (buildNumberArbitrary (gtValueSchema r) path) v →
          ∃ q : ℚ, v = .vNum q ∧ r < q)
    ∧ (buildNumberArbitrary (ltValueSchema r) path =
      .doubleRange MIN_SAFE_INTEGER
        (min MAX_SAFE_INTEGER (jsSub r (if qIsInt r then 1 else qEpsilon))))
    ∧ (qIsInt r = true → -(2 ^ 53 : ℚ) < r →
        ∀ v, ArbMem (buildNumberArbitrary (ltValueSchema r) path) v →
          ∃ q : ℚ, v = .vNum q ∧ q < r) :=
  ⟨gt_build r path, gt_bound r path, lt_build r path, lt_bound r path⟩

/-- `51` is a possible sample for `gtValue(50)`. -/
theorem gtFifty_mem :
    ArbMem (buildNumberArbitrary (gtValueSchema 50) "") (.vNum 51) := by
  have hint50 : qIsInt (50 : ℚ) = true := rfl
  rw [gt_build 50 "", if_pos hint50, jsAdd_fifty_one]
  exact ArbMem.doubleRange (by norm_num [max_def, MIN_SAFE_INTEGER])
    (by norm_num [MAX_SAFE_INTEGER])

/-- `49` is a possible sample for `ltValue(50)`. -/
theorem ltFifty_mem :
    ArbMem (buildNumberArbitrary (ltValueSchema 50) "") (.vNum 49) := by
  have hint50 : qIsInt (50 : ℚ) = true := rfl
  rw [lt_build 50 "", if_pos hint50, jsSub_fifty_one]
  exact ArbMem.doubleRange (by norm_num [MIN_SAFE_INTEGER])
    (by norm_num [min_def, MAX_SAFE_INTEGER])

/-- Witness for the amended C7: at the integer requirement 50, the samples
`51` (for gt) and `49` (for lt) satisfy the strict bounds. -/
theorem C7_strict_inequality_bounds_witness :
    qIsInt (50 : ℚ) = true ∧ (50 : ℚ) < 2 ^ 53 ∧ -(2 ^ 53 : ℚ) < 50 ∧
    (∃ q : ℚ, Value.vNum 51 = .vNum q ∧ (50 : ℚ) < q) ∧
    (∃ q : ℚ, Value.vNum 49 = .vNum q ∧ q < (50 : ℚ)) := by
  refine ⟨rfl, by norm_num, by norm_num, ?_, ?_⟩
  · exact (C7_strict_inequality_bounds 50 "").2.1 rfl (by norm_num)
      (.vNum 51) gtFifty_mem
  · exact (C7_strict_inequality_bounds 50 "").2.2.2 rfl (by norm_num)
      (.vNum 49) ltFifty_mem

/-! ## The date strategy -/

/-- The date strategy folds `gt_value r` into an inclusive sampling
minimum equal to `r` itself, with no fallback filter. -/
theorem dateGt_build (r : ℤ) (path : String) :
    buildDateArbitrary (dateGtSchema r) path = .dateRange (some r) none := rfl

/-- The date strategy folds `lt_value r` into an inclusive sampling
maximum equal to `r` itself, with no fallback filter. -/
theorem dateLt_build (r : ℤ) (path : String) :
    buildDateArbitrary (dateLtSchema r) path = .dateRange none (some r) := rfl

/-- **C10.**  For a date schema, a `gt_value` (resp. `lt_value`) constraint
becomes an inclusive minimum (resp. maximum) equal to the requirement
itself — no one-unit adjustment, no fallback filter — so the boundary
`Date` itself is a possible sample even though the constraint is strict. -/
theorem C10_date_strict_bound_inclusive (r : ℤ) (path : String) :
    (buildDateArbitrary (dateGtSchema r) path = .dateRange (some r) none)
    ∧ (buildDateArbitrary (dateLtSchema r) path = .dateRange none (some r))
    ∧ (dateLowerDefault ≤ r → r ≤ dateUpperDefault →
        ArbMem (buildDateArbitrary (dateGtSchema r) path) (.vDate r) ∧
        ArbMem (buildDateArbitrary (dateLtSchema r) path) (.vDate r)) := by
  refine ⟨dateGt_build r path, dateLt_build r path, fun h1 h2 => ⟨?_, ?_⟩⟩
  · rw [dateGt_build]
    exact ArbMem.dateRange (by simp) (by simpa using h2)
  · rw [dateLt_build]
    exact ArbMem.dateRange (by simpa using h1) (by simp)

/-- Witness for C10: the boundary date `0` (the epoch) is itself a possible
sample under `gtValue(new Date(0))` and under `ltValue(new Date(0))`. -/
theorem C10_date_strict_bound_inclusive_witness :
    dateLowerDefault ≤ (0 : ℤ) ∧ (0 : ℤ) ≤ dateUpperDefault ∧
    ArbMem (buildDateArbitrary (dateGtSchema 0) "") (.vDate 0) ∧
    ArbMem (buildDateArbitrary (dateLtSchema 0) "") (.vDate 0) := by
  refine ⟨by decide, by decide, ?_⟩
  exact (C10_date_strict_bound_inclusive 0 "").2.2 (by decide) (by decide)

/-! ## Wrapper strategies (optional / nullable / nullish) -/

/-- A bare boolean sub-schema builds the uniform boolean generator. -/
theorem boolean_build :
    inputWithPath vfcNew (.boolean 41 none) "" = .ok .boolean := by
  simp [inputWithPath, findOverride, mapGet, vfcNew, arbitraryBuilder,
    buildBooleanArbitrary, Schema.pipeOf, isSupportedSchemaType]

/-- What the wrapper strategies build: `fc.option(_, {freq: 2})` for
optional and nullable (wrapped weight 2, absent weight 1), and the
weighted choice 8:1:1 for nullish. -/
theorem wrapper_builds (b : Builder) (i : ℕ) (w : Schema) (path : String)
    (inner : Arb) (hov : mapGet b.overrides i = none)
    (hw : inputWithPath b w path = .ok inner) :
    inputWithPath b (.optional i w) path =
      .ok (.oneofW [(1, .const .vUndefined), (2, inner)]) ∧
    inputWithPath b (.nullable i w) path =
      .ok (.oneofW [(1, .const .vNull), (2, inner)]) ∧
    inputWithPath b (.nullish i w) path =
      .ok (.oneofW [(8, inner), (1, .const .vNull), (1, .const .vUndefined)]) := by
  refine ⟨?_, ?_, ?_⟩ <;>
    (rw [inputWithPath]
     simp [findOverride, Schema.ident, hov, isSupportedSchemaType,
       arbitraryBuilder, hw, fcOption, bind, Except.bind, pure, Except.pure])

/-- **C9 (counterexample).**  For `optional(boolean())` the built generator
is a weighted choice giving the wrapped generator weight 2 against weight 1
for `undefined` — a 2:1 ratio, not the claimed (roughly) 4:1. -/
theorem C9_presence_weights_counterexample :
    inputWithPath vfcNew optionalBooleanSchema "" =
      .ok (.oneofW [(1, .const .vUndefined), (2, .boolean)]) ∧
    (2 : ℕ) ≠ 4 * 1 := by
  refine ⟨?_, by decide⟩
  exact (wrapper_builds vfcNew 40 (.boolean 41 none) "" .boolean rfl
    boolean_build).1

/-- **C9 (amended).**  For optional and nullable wrappers the composed
generator is `fc.option` with `freq: 2` — a weighted choice favoring the
wrapped generator over the single absent marker at 2:1 (not 4:1); for
nullish the ratio across wrapped value, null and undefined is 8:1:1 as
claimed. -/
theorem C9_presence_weights (b : Builder) (i : ℕ) (w : Schema) (path : String)
    (inner : Arb) (hov : mapGet b.overrides i = none)
    (hw : inputWithPath b w path = .ok inner) :
    inputWithPath b (.optional i w) path =
      .ok (.oneofW [(1, .const .vUndefined), (2, inner)]) ∧
    inputWithPath b (.nullable i w) path =
      .ok (.oneofW [(1, .const .vNull), (2, inner)]) ∧
    inputWithPath b (.nullish i w) path =
      .ok (.oneofW [(8, inner), (1, .const .vNull), (1, .const .vUndefined)]) :=
  wrapper_builds b i w path inner hov hw

/-- Witness for the amended C9, at `optional(boolean())`,
`nullable(boolean())` and `nullish(boolean())` with an empty registry. -/
theorem C9_presence_weights_witness :
    inputWithPath vfcNew (.optional 40 (.boolean 41 none)) "" =
      .ok (.oneofW [(1, .const .vUndefined), (2, .boolean)]) ∧
    inputWithPath vfcNew (.nullable 40 (.boolean 41 none)) "" =
      .ok (.oneofW [(1, .const .vNull), (2, .boolean)]) ∧
    inputWithPath vfcNew (.nullish 40 (.boolean 41 none)) "" =
      .ok (.oneofW [(8, .boolean), (1, .const .vNull), (1, .const .vUndefined)]) :=
  C9_presence_weights vfcNew 40 (.boolean 41 none) "" .boolean rfl boolean_build

/-! ## The dispatcher error message (unsupported schema types) -/

/-- **C2.**  Dispatching `{type: "totally_custom"}` nested as object field
`x` raises `UnsupportedSchemaType`, but the message the source builds
contains only the type name and **no** diagnostic path: it does not
contain `.x` (the claim, the spec and the repository's own tests expect
the path in the message). -/
theorem C2_unsupported_error_lacks_path :
    inputOf vfcNew nestedCustomSchema =
      .error (.unsupportedSchema (unsupportedMessage "totally_custom")) ∧
    strIncl (unsupportedMessage "totally_custom") "totally_custom" = true ∧
    strIncl (unsupportedMessage "totally_custom") ".x" = false := by
  refine ⟨?_, by decide, by decide⟩
  simp [inputOf, inputWithPath, arbitraryBuilder, inputFields, findOverride,
    mapGet, vfcNew, nestedCustomSchema, totallyCustomSchema,
    isSupportedSchemaType, Schema.type, Except.bind, bind]

/-! ## The string strategy (validity and equality constraints) -/

/-- **C8.**  A string schema with a `value` equality constraint does *not*
short-circuit to a constant generator: the string strategy has no `value`
case, the constraint falls into the default branch (which only recognizes
regex-valued requirements) and is silently dropped, so the built generator
is the plain bounded string generator, whose support contains `""` — a
value the validator rejects for `value("a")`. -/
theorem C8_string_value_not_shortcircuited :
    inputOf vfcNew stringValueSchema = .ok (.stringRange 0 10) ∧
    (Arb.stringRange 0 10 ≠ .const (.vStr "a")) ∧
    ArbMem (.stringRange 0 10) (.vStr "") ∧
    validates stringValueSchema (.vStr "") = false := by
  refine ⟨?_, fun h => Arb.noConfusion h,
    ArbMem.stringRange (by decide) (by decide), by decide⟩
  simp [inputOf, inputWithPath, arbitraryBuilder, findOverride, mapGet, vfcNew,
    stringValueSchema, isSupportedSchemaType, buildStringArbitrary,
    Schema.pipeOf, strResolve, initStrAcc, List.filter]

/-- **C1.**  Validity fails on the code: for the supported (and
satisfiable) string schema `maxLength(3)` + `startsWith("ab")`, the
strategy samples a base string of length ≤ 3 and then prepends `"ab"`, so
`"abzzz"` (length 5) is a possible sample of `inputOf` — and the external
validator rejects it, because `max_length 3` fails. -/
theorem C1_validity_fails_for_recognized_constraints :
    isSupportedSchemaType lengthPrefixSchema = true ∧
    inputOf vfcNew lengthPrefixSchema = .ok lengthPrefixArb ∧
    ArbMem lengthPrefixArb (.vStr "abzzz") ∧
    validates lengthPrefixSchema (.vStr "abzzz") = false := by
  have h0 : ArbMem (.stringRange 0 3) (.vStr "zzz") :=
    ArbMem.stringRange (by decide) (by decide)
  have h1 := ArbMem.mapA (f := strMap (fun s => "ab" ++ s)) h0
  refine ⟨rfl, ?_, h1, by decide⟩
  show inputWithPath vfcNew lengthPrefixSchema "" = .ok lengthPrefixArb
  rw [inputWithPath]
  simp [findOverride, mapGet, vfcNew, isSupportedSchemaType, arbitraryBuilder,
    buildStringArbitrary, Schema.pipeOf, lengthPrefixSchema, strResolve,
    initStrAcc, List.filter, lengthPrefixArb]
  exact ⟨rfl, rfl⟩

end ValibotFastCheck
